import Mathlib

/-!
Verification of the genrex pattern-tokenization and token-driven sampling
engine against its design description.

The Rust sources (src/lib.rs, src/tokens.rs, src/traits.rs, src/ast.rs,
src/parser.rs, src/error.rs) are shallowly embedded below:
`usize` becomes `Nat` (with `USIZE_MAX` standing for `usize::MAX` where the
code compares against it), Rust `String`s become `List Char` with byte
lengths computed through `Char.utf8Size`, the pseudo-random source becomes
an explicit stream of naturals threaded through every sampling call, and
the external `regex` validator becomes an abstract boolean predicate.
-/

namespace Genrex

/-- `usize::MAX`, the sentinel the tokenizer stores for an unbounded
quantifier maximum. -/
def USIZE_MAX : Nat := 2 ^ 64 - 1

/-- The pseudo-random source: an infinite stream of naturals together with a
cursor.  Every execution of the Rust generator corresponds to one stream
(the sequence of offsets the RNG produced), so quantifying over `Rng`
quantifies over all random behaviours. -/
structure Rng where
  f : Nat → Nat
  i : Nat

/-- Draw the next raw value from the stream. -/
def Rng.next (r : Rng) : Nat × Rng := (r.f r.i, ⟨r.f, r.i + 1⟩)

/-- Model of rand's `gen_range(lo..=hi)` for a nonempty range `lo ≤ hi`:
the drawn value is folded into the range. -/
def Rng.genRangeIncl (r : Rng) (lo hi : Nat) : Nat × Rng :=
  let (v, r') := r.next
  (lo + v % (hi + 1 - lo), r')

/-- Model of rand's `gen_range(0..n)` for `n > 0`. -/
def Rng.genBelow (r : Rng) (n : Nat) : Nat × Rng :=
  let (v, r') := r.next
  (v % n, r')

/-- src/error.rs: `GenrexError`, the node-generator error taxonomy. -/
inductive GenrexError where
  | InvalidRegex : String → GenrexError
  | NoMatch : GenrexError
  | Timeout : GenrexError
  | BackreferenceError : String → GenrexError
  | UnsupportedFeature : String → GenrexError
  | Internal : String → GenrexError
deriving DecidableEq, Repr

/-- src/lib.rs: `GenError`, the orchestrator-level error type (note that it
has no internal-error variant at all). -/
inductive GenError where
  | InvalidRegex : String → GenError
  | NoMatch : GenError
deriving DecidableEq, Repr

/-- src/traits.rs: `TokenContext`, the per-attempt generation context. -/
structure TokenContext where
  max_repeat : Nat
  captures : List (Option (List Char))
  unresolved_refs : List (Nat × Nat)
  current_output_len : Nat
deriving DecidableEq, Repr

/-- `TokenContext::new_with_max_repeat`. -/
def TokenContext.new_with_max_repeat (m : Nat) : TokenContext :=
  { max_repeat := m, captures := [], unresolved_refs := [], current_output_len := 0 }

/-- `TokenContext::new` (default `max_repeat` of 32). -/
def TokenContext.new : TokenContext := TokenContext.new_with_max_repeat 32

/-- `TokenContext::set_output_len`. -/
def TokenContext.set_output_len (ctx : TokenContext) (len : Nat) : TokenContext :=
  { ctx with current_output_len := len }

/-- `TokenContext::add_unresolved`: push `(current cursor, group id)`. -/
def TokenContext.add_unresolved (ctx : TokenContext) (group_id : Nat) : TokenContext :=
  { ctx with unresolved_refs := ctx.unresolved_refs ++ [(ctx.current_output_len, group_id)] }

/-- `TokenContext::record_capture`: id 0 appends a fresh slot, otherwise the
slot `id - 1` is grown to (resize with `None`) and overwritten. -/
def TokenContext.record_capture (ctx : TokenContext) (group_id : Nat) (s : List Char) :
    TokenContext :=
  if group_id = 0 then { ctx with captures := ctx.captures ++ [some s] }
  else
    let slot := group_id - 1
    let cs :=
      if ctx.captures.length ≤ slot then
        ctx.captures ++ List.replicate (slot + 1 - ctx.captures.length) none
      else ctx.captures
    { ctx with captures := cs.set slot (some s) }

/-- `TokenContext::get_capture`: clone the slot `id - 1` if it is in range. -/
def TokenContext.get_capture (ctx : TokenContext) (group_id : Nat) : Option (List Char) :=
  let slot := group_id - 1
  if slot < ctx.captures.length then ctx.captures.getD slot none else none

/-- src/tokens.rs: the token tree. -/
inductive Token where
  | Literal : Char → Token
  | Class : List Char → Token
  | NegatedClass : List Char → Token
  | Concatenation : List Token → Token
  | Alternation : List Token → Token
  | Quantifier : Token → Nat → Nat → Bool → Token
  | Group : Token → Nat → Token
  | NonCapturingGroup : Token → Token
  | Backreference : Nat → Token
  | AnchorStart : Token
  | AnchorEnd : Token
  | WordBoundary : Token
  | Wildcard : Token

/-- Byte length of a generated fragment (Rust `String::len`). -/
def utf8Len (s : List Char) : Nat := (s.map Char.utf8Size).sum

/-- The fixed alphanumeric alphabet used by `Wildcard` generation and by
rejection sampling. -/
def WILDCARD_ALPHABET : List Char :=
  "ABCDEFGHIJKLMNOPQRSTUVWXYZabcdefghijklmnopqrstuvwxyz0123456789".data

theorem sizeOf_getD_lt_token (l : List Token) (i : Nat) :
    sizeOf ((l[i]?).getD Token.Wildcard) < 1 + sizeOf l := by
  induction l generalizing i with
  | nil =>
    cases i <;> simp
  | cons a t ih =>
    cases i with
    | zero =>
      simp only [List.getElem?_cons_zero, Option.getD_some, List.cons.sizeOf_spec]
      omega
    | succ j =>
      have h := ih j
      simp only [List.getElem?_cons_succ, List.cons.sizeOf_spec]
      omega

mutual

/-- src/tokens.rs: `impl RegexToken for Token`, `generate`.  The `&mut` RNG
and context are threaded explicitly; the first component is the Rust return
value and the other two are the states of the two `&mut` arguments on exit
(also on the error path, since the caller keeps using the RNG). -/
def Token.generate (t : Token) (rng : Rng) (ctx : TokenContext) :
    (Except GenrexError (List Char)) × Rng × TokenContext :=
  match t with
  | .Literal c => (.ok [c], rng, ctx)
  | .Class chars =>
      if chars.isEmpty then (.error (.Internal "Empty class"), rng, ctx)
      else
        let (idx, rng') := rng.genBelow chars.length
        (.ok [chars.getD idx ' '], rng', ctx)
  | .NegatedClass _ =>
      (.error (.UnsupportedFeature "Negated class generation"), rng, ctx)
  | .Concatenation tokens => genConcat tokens [] rng ctx
  | .Alternation choices =>
      if choices.isEmpty then (.error (.Internal "Empty alternation"), rng, ctx)
      else
        let (idx, rng') := rng.genBelow choices.length
        Token.generate (choices.getD idx .Wildcard) rng' (ctx.set_output_len 0)
  | .Quantifier token mn mx greedy =>
      if mn > mx then (.error (.Internal "Quantifier min > max"), rng, ctx)
      else
        let effective_max := if mx = USIZE_MAX then min (mn + 32) USIZE_MAX else mx
        if mn = mx then genRepeat token mn [] rng ctx
        else
          let (a, rng1) := rng.genRangeIncl mn effective_max
          let (b, rng2) := rng1.genRangeIncl mn effective_max
          genRepeat token (if greedy then max a b else min a b) [] rng2 ctx
  | .Group inner idx =>
      match Token.generate inner rng (ctx.set_output_len 0) with
      | (.error e, rng', ctx') => (.error e, rng', ctx')
      | (.ok s, rng', ctx') => (.ok s, rng', ctx'.record_capture idx s)
  | .NonCapturingGroup inner =>
      Token.generate inner rng (ctx.set_output_len 0)
  | .Backreference idx =>
      if idx = 0 then
        (.error (.BackreferenceError "backreference index 0 is invalid"), rng, ctx)
      else if ctx.captures.isEmpty then
        (.error (.BackreferenceError
          ("no capture available for backreference \\" ++ toString idx)), rng, ctx)
      else
        match ctx.get_capture idx with
        | some s => (.ok s, rng, ctx)
        | none => (.ok [], rng, ctx.add_unresolved idx)
  | .AnchorStart => (.ok [], rng, ctx)
  | .AnchorEnd => (.ok [], rng, ctx)
  | .WordBoundary => (.ok [], rng, ctx)
  | .Wildcard =>
      let (idx, rng') := rng.genBelow 62
      (.ok [WILDCARD_ALPHABET.getD idx 'A'], rng', ctx)
termination_by (sizeOf t, 0)
decreasing_by
  all_goals simp_wf
  all_goals first
    | (apply Prod.Lex.left; first
        | exact sizeOf_getD_lt_token _ _
        | omega)
    | (apply Prod.Lex.right; omega)
    | omega

/-- The `Concatenation` loop: before each child the context cursor is set
to the byte length generated so far. -/
def genConcat (tokens : List Token) (acc : List Char) (rng : Rng) (ctx : TokenContext) :
    (Except GenrexError (List Char)) × Rng × TokenContext :=
  match tokens with
  | [] => (.ok acc, rng, ctx)
  | t :: rest =>
      match Token.generate t rng (ctx.set_output_len (utf8Len acc)) with
      | (.error e, rng', ctx') => (.error e, rng', ctx')
      | (.ok s, rng', ctx') => genConcat rest (acc ++ s) rng' ctx'
termination_by (sizeOf tokens, 0)
decreasing_by
  all_goals simp_wf
  all_goals first
    | (apply Prod.Lex.left; omega)
    | (apply Prod.Lex.right; omega)
    | omega

/-- The `Quantifier` repetition loop (`for _ in 0..count`). -/
def genRepeat (t : Token) (n : Nat) (acc : List Char) (rng : Rng) (ctx : TokenContext) :
    (Except GenrexError (List Char)) × Rng × TokenContext :=
  match n with
  | 0 => (.ok acc, rng, ctx)
  | n + 1 =>
      match Token.generate t rng (ctx.set_output_len (utf8Len acc)) with
      | (.error e, rng', ctx') => (.error e, rng', ctx')
      | (.ok s, rng', ctx') => genRepeat t n (acc ++ s) rng' ctx'
termination_by (sizeOf t, n + 1)
decreasing_by
  all_goals simp_wf
  all_goals first
    | (apply Prod.Lex.left; omega)
    | (apply Prod.Lex.right; omega)
    | omega

end

/-! ### The tokenizer (src/lib.rs, `lex_pattern`) -/

/-- The `\d` class. -/
def DIGIT_CHARS : List Char := "0123456789".data

/-- The `\w` class. -/
def WORD_CHARS : List Char :=
  "abcdefghijklmnopqrstuvwxyzABCDEFGHIJKLMNOPQRSTUVWXYZ0123456789_".data

/-- The `\s` class. -/
def SPACE_CHARS : List Char := " \t\n\r\x0B\x0C".data

/-- The `'['` arm's inner loop: collect characters up to (and consuming) the
first `']'`, or to the end of input. -/
def scanClass : List Char → List Char × List Char
  | [] => ([], [])
  | c :: rest =>
      if c = ']' then ([], rest)
      else
        let (cl, r) := scanClass rest
        (c :: cl, r)

/-- The balanced-parenthesis scan shared by the `'('` and `"?:"` arms:
depth-counting until the matching `')'` (consumed) or end of input. -/
def scanGroup : Nat → List Char → List Char × List Char
  | _, [] => ([], [])
  | depth, c :: rest =>
      if c = '(' then
        let (sub, r) := scanGroup (depth + 1) rest
        ('(' :: sub, r)
      else if c = ')' then
        if depth = 1 then ([], rest)
        else
          let (sub, r) := scanGroup (depth - 1) rest
          (')' :: sub, r)
      else
        let (sub, r) := scanGroup depth rest
        (c :: sub, r)

theorem scanClass_rest_le (cs : List Char) : (scanClass cs).2.length ≤ cs.length := by
  induction cs with
  | nil => simp [scanClass]
  | cons c rest ih =>
    simp only [scanClass]
    split
    · simp
    · simpa using Nat.le_succ_of_le ih

theorem scanGroup_content_le (d : Nat) (cs : List Char) :
    (scanGroup d cs).1.length ≤ cs.length := by
  induction cs generalizing d with
  | nil => simp [scanGroup]
  | cons c rest ih =>
    simp only [scanGroup]
    split
    · simpa using ih (d + 1)
    · split
      · split
        · simp
        · simpa using ih (d - 1)
      · simpa using ih d

theorem scanGroup_rest_le (d : Nat) (cs : List Char) :
    (scanGroup d cs).2.length ≤ cs.length := by
  induction cs generalizing d with
  | nil => simp [scanGroup]
  | cons c rest ih =>
    simp only [scanGroup]
    split
    · exact Nat.le_succ_of_le (ih (d + 1))
    · split
      · split
        · simp
        · exact Nat.le_succ_of_le (ih (d - 1))
      · exact Nat.le_succ_of_le (ih d)

/-- Rust `str::parse::<usize>` as used by the `'{'` arm: optional leading
`'+'`, at least one digit, no other characters, value within `usize`. -/
def parseUsize (s : List Char) : Option Nat :=
  let digits := match s with
    | '+' :: rest => rest
    | _ => s
  if digits = [] then none
  else if digits.all (fun c => c.isDigit) then
    let v := digits.foldl (fun acc c => acc * 10 + (c.toNat - 48)) 0
    if v ≤ USIZE_MAX then some v else none
  else none

theorem length_dropWhile_le (l : List Char) (p : Char → Bool) :
    (l.dropWhile p).length ≤ l.length := by
  induction l with
  | nil => simp [List.dropWhile]
  | cons c t ih =>
    simp only [List.dropWhile]
    split
    · exact le_trans ih (by simp)
    · simp

/-- The optional `,max` part of the `'{'` arm: on a leading comma, a second
number is read up to `'}'` (empty means unbounded, malformed falls back to
`min`); otherwise `max = min`. -/
def scanBraceMax (mn : Nat) (cs1 : List Char) : Nat × List Char :=
  match cs1 with
  | ',' :: r =>
      let num2 := r.takeWhile (fun ch => ch != '\x7d')
      let r2 := r.dropWhile (fun ch => ch != '\x7d')
      ((if num2 = [] then USIZE_MAX else (parseUsize num2).getD mn), r2)
  | _ => (mn, cs1)

/-- The final `if let Some('}') = chars.peek()` of the `'{'` arm. -/
def scanBraceClose (cs2 : List Char) : List Char :=
  match cs2 with
  | '\x7d' :: r => r
  | _ => cs2

/-- The `'{'` arm's bound parsing: returns `(min, max, rest)`; a missing or
malformed first number parses as 0. -/
def scanBrace (cs : List Char) : Nat × Nat × List Char :=
  let num := cs.takeWhile (fun ch => ch != ',' && ch != '\x7d')
  let cs1 := cs.dropWhile (fun ch => ch != ',' && ch != '\x7d')
  let mn := (parseUsize num).getD 0
  let (mx, cs2) := scanBraceMax mn cs1
  (mn, mx, scanBraceClose cs2)

theorem scanBraceMax_rest_le (mn : Nat) (cs1 : List Char) :
    (scanBraceMax mn cs1).2.length ≤ cs1.length := by
  unfold scanBraceMax
  split
  · rename_i r
    exact le_trans (length_dropWhile_le r _) (by simp)
  · simp

theorem scanBraceClose_le (cs2 : List Char) : (scanBraceClose cs2).length ≤ cs2.length := by
  unfold scanBraceClose
  split
  · simp
  · simp

theorem scanBrace_rest_le (cs : List Char) : (scanBrace cs).2.2.length ≤ cs.length := by
  unfold scanBrace
  refine le_trans (scanBraceClose_le _) ?_
  refine le_trans (scanBraceMax_rest_le _ _) ?_
  exact length_dropWhile_le cs _

/-- The shared quantifier tail of the `'?'`, `'*'`, `'+'` and `'{'` arms:
`tokens.pop()` rewraps the most recent token; the lazy `'?'` modifier is
peeked (and consumed) only when a token was actually popped.  Returns the
new token list and the remaining input. -/
def pushQuant (acc : List Token) (mn mx : Nat) (cs : List Char) :
    List Token × List Char :=
  match acc.getLast? with
  | none => (acc, cs)
  | some last =>
      match cs with
      | '?' :: cs2 => (acc.dropLast ++ [Token.Quantifier last mn mx false], cs2)
      | _ => (acc.dropLast ++ [Token.Quantifier last mn mx true], cs)

theorem pushQuant_rest_le (acc : List Token) (mn mx : Nat) (cs : List Char) :
    (pushQuant acc mn mx cs).2.length ≤ cs.length := by
  unfold pushQuant
  split
  · simp
  · split
    · simp
    · simp

/-- The `'\\'` arm's escape table. -/
def escTok (e : Char) : Token :=
  if e = 'b' then Token.WordBoundary
  else if e = 'd' then Token.Class DIGIT_CHARS
  else if e = 'D' then Token.NegatedClass DIGIT_CHARS
  else if e = 'w' then Token.Class WORD_CHARS
  else if e = 'W' then Token.NegatedClass WORD_CHARS
  else if e = 's' then Token.Class SPACE_CHARS
  else if e = 'S' then Token.NegatedClass SPACE_CHARS
  else if '1' ≤ e ∧ e ≤ '9' then Token.Backreference (e.toNat - 48)
  else Token.Literal e

/-- src/lib.rs: `lex_pattern`, as the tail-recursive scan it is written as
(`tokens` is the accumulated output vector, `g` the shared `next_group`
counter passed by `&mut`). -/
def lexGo : List Char → List Token → Nat → List Token × Nat
  | [], acc, g => (acc, g)
  | c :: cs, acc, g =>
    if c = '[' then
      if cs.head? = some '^' then
        lexGo (scanClass cs.tail).2 (acc ++ [Token.NegatedClass (scanClass cs.tail).1]) g
      else
        lexGo (scanClass cs).2 (acc ++ [Token.Class (scanClass cs).1]) g
    else if c = '.' then lexGo cs (acc ++ [Token.Wildcard]) g
    else if c = '^' then lexGo cs (acc ++ [Token.AnchorStart]) g
    else if c = '$' then lexGo cs (acc ++ [Token.AnchorEnd]) g
    else if c = '\\' then
      if cs = [] then (acc, g)
      else lexGo cs.tail (acc ++ [escTok (cs.headD ' ')]) g
    else if c = '(' then
      let inner := lexGo (scanGroup 1 cs).1 [] (g + 1)
      lexGo (scanGroup 1 cs).2
        (acc ++ [Token.Group (Token.Concatenation inner.1) g]) inner.2
    else if c = '?' then
      if cs.head? = some ':' then
        let inner := lexGo (scanGroup 1 cs.tail).1 [] g
        lexGo (scanGroup 1 cs.tail).2
          (acc ++ [Token.NonCapturingGroup (Token.Concatenation inner.1)]) inner.2
      else
        lexGo (pushQuant acc 0 1 cs).2 (pushQuant acc 0 1 cs).1 g
    else if c = '*' then
      lexGo (pushQuant acc 0 USIZE_MAX cs).2 (pushQuant acc 0 USIZE_MAX cs).1 g
    else if c = '+' then
      lexGo (pushQuant acc 1 USIZE_MAX cs).2 (pushQuant acc 1 USIZE_MAX cs).1 g
    else if c = '\x7b' then
      lexGo (pushQuant acc (scanBrace cs).1 (scanBrace cs).2.1 (scanBrace cs).2.2).2
        (pushQuant acc (scanBrace cs).1 (scanBrace cs).2.1 (scanBrace cs).2.2).1 g
    else if c = '|' then
      let right := lexGo cs [] g
      ([Token.Alternation [Token.Concatenation acc, Token.Concatenation right.1]], right.2)
    else
      lexGo cs (acc ++ [Token.Literal c]) g
termination_by cs _ _ => cs.length
decreasing_by
  all_goals simp_wf
  all_goals
    (try have htail : cs.tail.length ≤ cs.length := by cases cs <;> simp)
  all_goals first
    | omega
    | (have h := scanClass_rest_le cs.tail; omega)
    | (have h := scanClass_rest_le cs; omega)
    | (have h := scanGroup_content_le 1 cs; omega)
    | (have h := scanGroup_rest_le 1 cs; omega)
    | (have h := scanGroup_content_le 1 cs.tail; omega)
    | (have h := scanGroup_rest_le 1 cs.tail; omega)
    | (have h := pushQuant_rest_le acc 0 1 cs; omega)
    | (have h := pushQuant_rest_le acc 0 USIZE_MAX cs; omega)
    | (have h := pushQuant_rest_le acc 1 USIZE_MAX cs; omega)
    | (have h1 := scanBrace_rest_le cs
       have h2 := pushQuant_rest_le acc (scanBrace cs).1 (scanBrace cs).2.1 (scanBrace cs).2.2
       omega)

/-- `lex_pattern(pattern, next_group)`: scan with an empty output vector. -/
def lexPattern (p : List Char) (g : Nat) : List Token × Nat := lexGo p [] g

/-! Small-step rewriting lemmas for the tokenizer, one per scanner arm. -/

theorem lexGo_nil (acc : List Token) (g : Nat) : lexGo [] acc g = (acc, g) := by
  rw [lexGo]

theorem lexGo_class (cs : List Char) (acc : List Token) (g : Nat)
    (h : cs.head? ≠ some '^') :
    lexGo ('[' :: cs) acc g =
      lexGo (scanClass cs).2 (acc ++ [Token.Class (scanClass cs).1]) g := by
  rw [lexGo.eq_def]
  simp [h]

theorem lexGo_dot (cs : List Char) (acc : List Token) (g : Nat) :
    lexGo ('.' :: cs) acc g = lexGo cs (acc ++ [Token.Wildcard]) g := by
  rw [lexGo.eq_def]; simp

theorem lexGo_esc (e : Char) (cs : List Char) (acc : List Token) (g : Nat) :
    lexGo ('\\' :: e :: cs) acc g = lexGo cs (acc ++ [escTok e]) g := by
  rw [lexGo.eq_def]; simp

theorem lexGo_lparen (cs : List Char) (acc : List Token) (g : Nat) :
    lexGo ('(' :: cs) acc g =
      lexGo (scanGroup 1 cs).2
        (acc ++ [Token.Group (Token.Concatenation (lexGo (scanGroup 1 cs).1 [] (g + 1)).1) g])
        (lexGo (scanGroup 1 cs).1 [] (g + 1)).2 := by
  rw [lexGo.eq_def]; simp

theorem lexGo_noncap (cs : List Char) (acc : List Token) (g : Nat) :
    lexGo ('?' :: ':' :: cs) acc g =
      lexGo (scanGroup 1 cs).2
        (acc ++ [Token.NonCapturingGroup (Token.Concatenation (lexGo (scanGroup 1 cs).1 [] g).1)])
        (lexGo (scanGroup 1 cs).1 [] g).2 := by
  rw [lexGo.eq_def]; simp

theorem lexGo_lbrace (cs : List Char) (acc : List Token) (g : Nat) :
    lexGo ('\x7b' :: cs) acc g =
      lexGo (pushQuant acc (scanBrace cs).1 (scanBrace cs).2.1 (scanBrace cs).2.2).2
        (pushQuant acc (scanBrace cs).1 (scanBrace cs).2.1 (scanBrace cs).2.2).1 g := by
  rw [lexGo.eq_def]; simp

theorem lexGo_bar (cs : List Char) (acc : List Token) (g : Nat) :
    lexGo ('|' :: cs) acc g =
      ([Token.Alternation [Token.Concatenation acc, Token.Concatenation (lexGo cs [] g).1]],
        (lexGo cs [] g).2) := by
  rw [lexGo.eq_def]; simp

/-- The characters with a dedicated scanner arm; every other character
falls through to the `Literal` arm. -/
def SPECIAL_CHARS : List Char := ['[', '.', '^', '$', '\\', '(', '?', '*', '+', '\x7b', '|']

theorem lexGo_lit (c : Char) (cs : List Char) (acc : List Token) (g : Nat)
    (h : c ∉ SPECIAL_CHARS) :
    lexGo (c :: cs) acc g = lexGo cs (acc ++ [Token.Literal c]) g := by
  simp only [SPECIAL_CHARS, List.mem_cons, List.not_mem_nil, or_false, not_or] at h
  obtain ⟨h1, h2, h3, h4, h5, h6, h7, h8, h9, h10, h11⟩ := h
  rw [lexGo.eq_def]
  simp [h1, h2, h3, h4, h5, h6, h7, h8, h9, h10, h11]

/-! ### The semantic AST (src/ast.rs) and its generator (src/lib.rs) -/

/-- src/ast.rs: `AstNode`. -/
inductive AstNode where
  | Sequence : List AstNode → AstNode
  | Alternation : List AstNode → AstNode
  | Repeat : AstNode → Nat → Nat → Bool → AstNode
  | Group : AstNode → AstNode
  | NonCapturingGroup : AstNode → AstNode
  | Backreference : Nat → AstNode
  | Class : List Char → AstNode
  | NegatedClass : List Char → AstNode
  | Literal : Char → AstNode
  | AnchorStart : AstNode
  | AnchorEnd : AstNode
  | WordBoundary : AstNode
  | Wildcard : AstNode

theorem sizeOf_getD_lt_astNode (l : List AstNode) (i : Nat) :
    sizeOf ((l[i]?).getD AstNode.Wildcard) < 1 + sizeOf l := by
  induction l generalizing i with
  | nil =>
    cases i <;> simp
  | cons a t ih =>
    cases i with
    | zero =>
      simp only [List.getElem?_cons_zero, Option.getD_some, List.cons.sizeOf_spec]
      omega
    | succ j =>
      have h := ih j
      simp only [List.getElem?_cons_succ, List.cons.sizeOf_spec]
      omega

mutual

/-- src/lib.rs: `RegexGenerator::generate_from_ast`.  The context is only
read (for `max_repeat`); the function never touches the capture table, so
only the RNG is threaded back. -/
def generateFromAst (node : AstNode) (rng : Rng) (ctx : TokenContext) :
    (Except GenError (List Char)) × Rng :=
  match node with
  | .Sequence nodes => genAstSeq nodes [] rng ctx
  | .Alternation nodes =>
      if nodes.isEmpty then (.ok [], rng)
      else
        let (idx, rng') := rng.genBelow nodes.length
        generateFromAst (nodes.getD idx .Wildcard) rng' ctx
  | .Repeat node mn mx greedy =>
      if mn > mx then (.error .NoMatch, rng)
      else
        let effective_max := if mx = USIZE_MAX then min (mn + ctx.max_repeat) USIZE_MAX else mx
        if mn = mx then genAstRepeat node mn [] rng ctx
        else
          let (a, rng1) := rng.genRangeIncl mn effective_max
          let (b, rng2) := rng1.genRangeIncl mn effective_max
          genAstRepeat node (if greedy then max a b else min a b) [] rng2 ctx
  | .Group inner => generateFromAst inner rng ctx
  | .NonCapturingGroup inner => generateFromAst inner rng ctx
  | .Backreference _ => (.error .NoMatch, rng)
  | .Class chars =>
      if chars.isEmpty then (.error .NoMatch, rng)
      else
        let (idx, rng') := rng.genBelow chars.length
        (.ok [chars.getD idx ' '], rng')
  | .NegatedClass _ => (.error .NoMatch, rng)
  | .Literal c => (.ok [c], rng)
  | .AnchorStart => (.ok [], rng)
  | .AnchorEnd => (.ok [], rng)
  | .WordBoundary => (.ok [], rng)
  | .Wildcard =>
      let (idx, rng') := rng.genBelow 62
      (.ok [WILDCARD_ALPHABET.getD idx 'A'], rng')
termination_by (sizeOf node, 0)
decreasing_by
  all_goals simp_wf
  all_goals first
    | (apply Prod.Lex.left; first
        | exact sizeOf_getD_lt_astNode _ _
        | omega)
    | (apply Prod.Lex.right; omega)
    | omega

/-- The `Sequence` loop of `generate_from_ast`. -/
def genAstSeq (nodes : List AstNode) (acc : List Char) (rng : Rng) (ctx : TokenContext) :
    (Except GenError (List Char)) × Rng :=
  match nodes with
  | [] => (.ok acc, rng)
  | n :: rest =>
      match generateFromAst n rng ctx with
      | (.error e, rng') => (.error e, rng')
      | (.ok s, rng') => genAstSeq rest (acc ++ s) rng' ctx
termination_by (sizeOf nodes, 0)
decreasing_by
  all_goals simp_wf
  all_goals first
    | (apply Prod.Lex.left; omega)
    | (apply Prod.Lex.right; omega)
    | omega

/-- The `Repeat` loop of `generate_from_ast`. -/
def genAstRepeat (node : AstNode) (n : Nat) (acc : List Char) (rng : Rng) (ctx : TokenContext) :
    (Except GenError (List Char)) × Rng :=
  match n with
  | 0 => (.ok acc, rng)
  | n + 1 =>
      match generateFromAst node rng ctx with
      | (.error e, rng') => (.error e, rng')
      | (.ok s, rng') => genAstRepeat node n (acc ++ s) rng' ctx
termination_by (sizeOf node, n + 1)
decreasing_by
  all_goals simp_wf
  all_goals first
    | (apply Prod.Lex.left; omega)
    | (apply Prod.Lex.right; omega)
    | omega

end

/-! ### The token-to-AST parser (src/parser.rs)

`AstParser` walks the token slice with a cursor; `parse_sequence` consumes
atoms one by one and stops when the *next* token is an `Alternation` token
(or at the end), `parse_alternation` then skips that separator token and
parses the following branch, failing (`None`) when nothing follows.  The
cursor-based loops are rendered below as recursion on the remaining slice:
a branch segment is the first token followed by the run of
non-`Alternation` tokens after it. -/

/-- `peek_is_alternation`. -/
def Token.isAlternationTok : Token → Bool
  | .Alternation _ => true
  | _ => false

mutual

/-- Termination weight for the parser's mixed cursor/structure recursion. -/
def wTok : Token → Nat
  | .Literal _ => 1
  | .Class _ => 1
  | .NegatedClass _ => 1
  | .Concatenation ts => wListTok ts + 4
  | .Alternation ts => wListTok ts + 4
  | .Quantifier t _ _ _ => wTok t + 4
  | .Group t _ => wTok t + 4
  | .NonCapturingGroup t => wTok t + 4
  | .Backreference _ => 1
  | .AnchorStart => 1
  | .AnchorEnd => 1
  | .WordBoundary => 1
  | .Wildcard => 1
termination_by t => sizeOf t
decreasing_by
  all_goals simp_wf
  all_goals omega

/-- Weight of a token list (strictly dominates each member's weight). -/
def wListTok : List Token → Nat
  | [] => 1
  | t :: ts => wTok t + wListTok ts + 1
termination_by l => sizeOf l
decreasing_by
  all_goals simp_wf
  all_goals omega

end

theorem wListTok_pos (l : List Token) : 1 ≤ wListTok l := by
  cases l <;> simp [wListTok]

theorem wListTok_takeWhile_le (p : Token → Bool) (l : List Token) :
    wListTok (l.takeWhile p) ≤ wListTok l := by
  induction l with
  | nil => simp [List.takeWhile]
  | cons t ts ih =>
    simp only [List.takeWhile]
    split
    · simp only [wListTok]; omega
    · simp only [wListTok]
      have := wListTok_pos ts
      have h1 : 1 ≤ wTok t + wListTok ts + 1 - wListTok ts := by omega
      omega

theorem wListTok_dropWhile_le (p : Token → Bool) (l : List Token) :
    wListTok (l.dropWhile p) ≤ wListTok l := by
  induction l with
  | nil => simp [List.dropWhile]
  | cons t ts ih =>
    simp only [List.dropWhile]
    split
    · simp only [wListTok]; omega
    · simp

mutual

/-- `AstParser::parse` / `parse_alternation` on a token slice: parse the
first branch segment; when an `Alternation` separator token follows, skip
it and collect the remaining branches. -/
def parseTokens (ts : List Token) : Option AstNode :=
  match ts with
  | [] => none
  | t :: rest =>
      match hrem : rest.dropWhile (fun x => !(x.isAlternationTok)) with
      | [] => some (segNode (t :: rest.takeWhile (fun x => !(x.isAlternationTok))))
      | _ :: rem2 =>
          match parseMore rem2 with
          | none => none
          | some others =>
              some (.Alternation
                (segNode (t :: rest.takeWhile (fun x => !(x.isAlternationTok))) :: others))
termination_by (wListTok ts, 3)
decreasing_by
  all_goals simp_wf
  all_goals simp only [wListTok]
  · have h := wListTok_takeWhile_le (fun x => !(x.isAlternationTok)) rest
    apply Prod.Lex.right'
    · omega
    · omega
  · have h1 := wListTok_dropWhile_le (fun x => !(x.isAlternationTok)) rest
    rw [hrem] at h1
    simp only [wListTok] at h1
    apply Prod.Lex.left
    omega
  · have h := wListTok_takeWhile_le (fun x => !(x.isAlternationTok)) rest
    apply Prod.Lex.right'
    · omega
    · omega

/-- The `while self.peek_is_alternation()` loop of `parse_alternation`:
each iteration has already skipped the separator; an exhausted slice makes
`parse_sequence` (and so the whole parse) fail. -/
def parseMore (ts : List Token) : Option (List AstNode) :=
  match ts with
  | [] => none
  | t :: rest =>
      match hrem : rest.dropWhile (fun x => !(x.isAlternationTok)) with
      | [] => some [segNode (t :: rest.takeWhile (fun x => !(x.isAlternationTok)))]
      | _ :: rem2 =>
          match parseMore rem2 with
          | none => none
          | some others =>
              some (segNode (t :: rest.takeWhile (fun x => !(x.isAlternationTok))) :: others)
termination_by (wListTok ts, 4)
decreasing_by
  all_goals simp_wf
  all_goals simp only [wListTok]
  · have h := wListTok_takeWhile_le (fun x => !(x.isAlternationTok)) rest
    apply Prod.Lex.right'
    · omega
    · omega
  · have h1 := wListTok_dropWhile_le (fun x => !(x.isAlternationTok)) rest
    rw [hrem] at h1
    simp only [wListTok] at h1
    apply Prod.Lex.left
    omega
  · have h := wListTok_takeWhile_le (fun x => !(x.isAlternationTok)) rest
    apply Prod.Lex.right'
    · omega
    · omega

/-- `parse_sequence` on one branch segment (always nonempty): one node is
returned bare, several are wrapped in `Sequence`. -/
def segNode (seg : List Token) : AstNode :=
  match seg with
  | [] => .Literal ' '
  | [t] => parseAtomNode t
  | t1 :: t2 :: rest => .Sequence (parseSeqNodes (t1 :: t2 :: rest))
termination_by (wListTok seg, 2)
decreasing_by
  all_goals simp_wf
  all_goals simp only [wListTok]
  · apply Prod.Lex.left
    omega
  · apply Prod.Lex.right'
    · omega
    · omega

/-- The atom list of a multi-node `parse_sequence`. -/
def parseSeqNodes (seg : List Token) : List AstNode :=
  match seg with
  | [] => []
  | t :: ts => parseAtomNode t :: parseSeqNodes ts
termination_by (wListTok seg, 1)
decreasing_by
  all_goals simp_wf
  all_goals simp only [wListTok]
  all_goals apply Prod.Lex.left
  all_goals omega

/-- `parse_atom`: map one token to its AST node; sub-token trees are parsed
through a fresh single-element slice, exactly as `AstParser::new(&[...])`
does, with `.unwrap_or(AstNode::Literal(' '))` on failure.  (parser.rs
writes `AstNode::NegatedClass` and `AstNode::Backreference` without the
payloads that ast.rs declares; the payloads are carried through here, and
`generate_from_ast` ignores both, so no behaviour depends on them.) -/
def parseAtomNode (t : Token) : AstNode :=
  match t with
  | .Literal c => .Literal c
  | .Class cs => .Class cs
  | .NegatedClass cs => .NegatedClass cs
  | .AnchorStart => .AnchorStart
  | .AnchorEnd => .AnchorEnd
  | .WordBoundary => .WordBoundary
  | .Wildcard => .Wildcard
  | .Backreference i => .Backreference i
  | .Group inner _ => .Group ((parseTokens [inner]).getD (.Literal ' '))
  | .NonCapturingGroup inner => .NonCapturingGroup ((parseTokens [inner]).getD (.Literal ' '))
  | .Quantifier tok mn mx gr => .Repeat ((parseTokens [tok]).getD (.Literal ' ')) mn mx gr
  | .Concatenation ts => (parseTokens ts).getD (.Literal ' ')
  | .Alternation ts => .Alternation (parseAltBranches ts)
termination_by (wTok t, 0)
decreasing_by
  all_goals simp_wf
  all_goals simp only [wTok, wListTok]
  all_goals apply Prod.Lex.left
  all_goals omega

/-- The per-branch parses of `parse_atom`'s `Alternation` arm. -/
def parseAltBranches (ts : List Token) : List AstNode :=
  match ts with
  | [] => []
  | t :: rest => ((parseTokens [t]).getD (.Literal ' ')) :: parseAltBranches rest
termination_by (wListTok ts, 5)
decreasing_by
  all_goals simp_wf
  all_goals simp only [wListTok]
  all_goals have hp := wListTok_pos rest
  · apply Prod.Lex.right'
    · omega
    · omega
  · apply Prod.Lex.left
    omega

end

/-! ### The orchestrator (src/lib.rs: `RegexGenerator`) -/

/-- Which of the three tactics produced `generate_one`'s return value:
the token loop, the legacy AST pass, or rejection sampling. -/
inductive GenTactic where
  | token : GenTactic
  | legacy : GenTactic
  | rejection : GenTactic
deriving DecidableEq, Repr

/-- A call's observable outcome; `panicked` marks the one reachable Rust
panic (`gen_range` on an empty range when `min_len > max_len`). -/
inductive Outcome (α : Type) where
  | ok : α → Outcome α
  | err : GenError → Outcome α
  | panicked : Outcome α
deriving DecidableEq, Repr

/-- src/lib.rs: `GeneratorConfig`. -/
structure GeneratorConfig where
  min_len : Nat
  max_len : Nat
  max_attempts : Nat
  timeout : Option Nat
deriving DecidableEq, Repr

/-- `GeneratorConfig::default()`. -/
def GeneratorConfig.default : GeneratorConfig :=
  { min_len := 0, max_len := 64, max_attempts := 10000, timeout := none }

/-- src/lib.rs: `RegexGenerator`.  The compiled `regex::Regex` is reduced
to its `is_match` predicate `re`; `clock` abstracts the wall clock: it
answers the `start.elapsed() >= timeout` check made before attempt `i`
(consulted only when a timeout is configured). -/
structure RegexGenerator where
  re : List Char → Bool
  config : GeneratorConfig
  clock : Nat → Bool
  multiline : Bool
  ast : Option AstNode
  tokens : Option (List Token)

/-- The `for t in tokens` loop of the token tactic: generate each top-level
token in order and concatenate (no cursor update between top-level tokens),
aborting the attempt on the first node error. -/
def genTopList (toks : List Token) (rng : Rng) (ctx : TokenContext) :
    (Except GenrexError (List Char)) × Rng × TokenContext :=
  match toks with
  | [] => (.ok [], rng, ctx)
  | t :: rest =>
      match Token.generate t rng ctx with
      | (.error e, rng', ctx') => (.error e, rng', ctx')
      | (.ok s, rng', ctx') =>
          match genTopList rest rng' ctx' with
          | (.error e, rng2, ctx2) => (.error e, rng2, ctx2)
          | (.ok s2, rng2, ctx2) => (.ok (s ++ s2), rng2, ctx2)

/-- The token tactic's retry loop (`while attempts < max_attempts`), with
`fuel` the remaining attempts and `i` the index of the next attempt: a
fresh context per attempt, node errors swallowed into a retry, candidates
rejected on length or validator mismatch. -/
def tokenLoop (g : RegexGenerator) (toks : List Token) :
    Nat → Nat → Rng → Option (List Char) × Rng
  | 0, _, rng => (none, rng)
  | fuel + 1, i, rng =>
      if g.config.timeout.isSome && g.clock i then (none, rng)
      else
        match genTopList toks rng TokenContext.new with
        | (.error _, rng', _) => tokenLoop g toks fuel (i + 1) rng'
        | (.ok out, rng', _) =>
            if utf8Len out < g.config.min_len || g.config.max_len < utf8Len out then
              tokenLoop g toks fuel (i + 1) rng'
            else if g.re out then (some out, rng')
            else tokenLoop g toks fuel (i + 1) rng'

/-- The legacy AST tactic: one single, non-retried pass of
`generate_from_ast`, then the same length and validator checks, with any
failure returned immediately. -/
def astTactic (g : RegexGenerator) (a : AstNode) (rng : Rng) :
    Outcome (List Char) × Rng :=
  match generateFromAst a rng TokenContext.new with
  | (.error e, rng') => (.err e, rng')
  | (.ok s, rng') =>
      if utf8Len s < g.config.min_len || g.config.max_len < utf8Len s then
        (.err .NoMatch, rng')
      else if g.re s then (.ok s, rng')
      else (.err .NoMatch, rng')

/-- `(0..len).map(|_| rng.sample(Alphanumeric))`. -/
def fillAlnum : Nat → List Char → Rng → List Char × Rng
  | 0, acc, rng => (acc, rng)
  | n + 1, acc, rng =>
      fillAlnum n (acc ++ [WILDCARD_ALPHABET.getD (rng.genBelow 62).1 'A'])
        (rng.genBelow 62).2

/-- The candidate drawn by one rejection-sampling probe: a uniform length
in `[min_len, max_len]` (the degenerate equal case skips the draw), filled
with alphanumeric characters. -/
def rejectionProbe (g : RegexGenerator) (rng : Rng) : List Char × Rng :=
  if g.config.max_len = g.config.min_len then
    fillAlnum g.config.min_len [] rng
  else
    fillAlnum (rng.genRangeIncl g.config.min_len g.config.max_len).1 []
      (rng.genRangeIncl g.config.min_len g.config.max_len).2

/-- The rejection-sampling tactic: accept the first probe the validator
matches.  `gen_range` on an empty range (`min_len > max_len` with the two
unequal) panics. -/
def rejectionLoop (g : RegexGenerator) : Nat → Nat → Rng → Outcome (List Char) × Rng
  | 0, _, rng => (.err .NoMatch, rng)
  | fuel + 1, i, rng =>
      if g.config.timeout.isSome && g.clock i then (.err .NoMatch, rng)
      else if g.config.max_len = g.config.min_len ∨ g.config.min_len ≤ g.config.max_len then
        if g.re (rejectionProbe g rng).1 then
          (.ok (rejectionProbe g rng).1, (rejectionProbe g rng).2)
        else rejectionLoop g fuel (i + 1) (rejectionProbe g rng).2
      else (.panicked, rng)

/-- src/lib.rs: `RegexGenerator::generate_one`, with the three tactics in
their fixed priority order; the second component records which tactic
produced the returned value. -/
def generateOne (g : RegexGenerator) (rng : Rng) :
    Outcome (List Char) × GenTactic × Rng :=
  match g.tokens with
  | some toks =>
      match tokenLoop g toks g.config.max_attempts 0 rng with
      | (some s, rng') => (.ok s, .token, rng')
      | (none, rng') =>
          match g.ast with
          | some a =>
              let (res, rng2) := astTactic g a rng'
              (res, .legacy, rng2)
          | none =>
              let (res, rng2) := rejectionLoop g g.config.max_attempts 0 rng'
              (res, .rejection, rng2)
  | none =>
      match g.ast with
      | some a =>
          let (res, rng2) := astTactic g a rng
          (res, .legacy, rng2)
      | none =>
          let (res, rng2) := rejectionLoop g g.config.max_attempts 0 rng
          (res, .rejection, rng2)

/-- src/lib.rs: `RegexGenerator::generate_n`: n sequential `generate_one`
calls, the first failure returned as the whole call's result. -/
def generateN (g : RegexGenerator) (rng : Rng) : Nat → Outcome (List (List Char)) × Rng
  | 0 => (.ok [], rng)
  | n + 1 =>
      match generateOne g rng with
      | (.ok s, _, rng') =>
          match generateN g rng' n with
          | (.ok v, rng2) => (.ok (s :: v), rng2)
          | (.err e, rng2) => (.err e, rng2)
          | (.panicked, rng2) => (.panicked, rng2)
      | (.err e, _, rng') => (.err e, rng')
      | (.panicked, _, rng') => (.panicked, rng')

/-- src/lib.rs: `RegexGeneratorBuilder::build` after validator compilation:
tokenize with `next_group = 1`, derive the legacy AST only from a nonempty
token list, store the token list only when nonempty.  `re` is the compiled
validator (or the permissive `.*` substitute under `allow_backrefs`). -/
def build (pattern : List Char) (re : List Char → Bool) (config : GeneratorConfig)
    (clock : Nat → Bool) (multiline : Bool) : RegexGenerator :=
  let toks := (lexPattern pattern 1).1
  { re := re, config := config, clock := clock, multiline := multiline,
    ast := if toks.isEmpty then none else parseTokens toks,
    tokens := if toks.isEmpty then none else some toks }

/-! ### Shared evaluation helpers -/

/-- A fixed deterministic stream, used for closed evaluations. -/
def rng0 : Rng := ⟨fun _ => 0, 0⟩

theorem genRangeIncl_bounds (r : Rng) (lo hi : Nat) (h : lo ≤ hi) :
    lo ≤ (r.genRangeIncl lo hi).1 ∧ (r.genRangeIncl lo hi).1 ≤ hi := by
  unfold Rng.genRangeIncl Rng.next
  constructor
  · simp
  · simp only
    have hm : (r.f r.i) % (hi + 1 - lo) < hi + 1 - lo := Nat.mod_lt _ (by omega)
    omega

/-- `genRepeat` of a literal produces exactly `n` copies and leaves the RNG
untouched. -/
theorem genRepeat_literal (c : Char) (n : Nat) (acc : List Char) (rng : Rng)
    (ctx : TokenContext) :
    (genRepeat (.Literal c) n acc rng ctx).1 = .ok (acc ++ List.replicate n c)
    ∧ (genRepeat (.Literal c) n acc rng ctx).2.1 = rng := by
  induction n generalizing acc ctx with
  | zero => simp [genRepeat]
  | succ m ih =>
    rw [genRepeat]
    simp only [Token.generate]
    have h := ih (acc ++ [c]) ((ctx.set_output_len (utf8Len acc)))
    simp only at h
    constructor
    · rw [h.1]
      simp [List.replicate_succ]
    · exact h.2

/-! ### Claims about the Node Generator -/

/-- C7: for every `NegatedClass` node and every random source and generation
context, the Node Generator fails with exactly the `UnsupportedFeature`
error — it never produces text, never returns another error variant, and
leaves the RNG and context untouched. -/
theorem C7_negated_class_always_unsupported (chars : List Char) (rng : Rng)
    (ctx : TokenContext) :
    Token.generate (.NegatedClass chars) rng ctx
      = (.error (.UnsupportedFeature "Negated class generation"), rng, ctx) := by
  simp [Token.generate]

/-- C3: generating the token tree of the pattern `(a)\1` yields exactly the
string `aa` for every random source: the group records its text under
identity 1 and the backreference copies it. -/
theorem C3_backreference_roundtrip (rng : Rng) :
    (genTopList (lexPattern ['(', 'a', ')', '\\', '1'] 1).1 rng TokenContext.new).1
      = .ok ['a', 'a'] := by
  have hlex : lexPattern ['(', 'a', ')', '\\', '1'] 1
      = ([.Group (.Concatenation [.Literal 'a']) 1, .Backreference 1], 2) := by
    simp [lexPattern, lexGo_nil, lexGo_lparen, lexGo_lit, lexGo_esc, scanGroup,
      SPECIAL_CHARS, escTok]
  rw [hlex]
  simp [genTopList, Token.generate, genConcat, TokenContext.new,
    TokenContext.new_with_max_repeat, TokenContext.set_output_len,
    TokenContext.record_capture, TokenContext.get_capture, utf8Len]

/-- C4 counterexample: a `Backreference(1)` node generated in a fresh
context — the capture is absent — does not record an unresolved entry and
return the empty string: it fails with a `BackreferenceError`, because the
generator special-cases an entirely empty capture table. -/
theorem C4_counterexample :
    (Token.generate (.Backreference 1) rng0 TokenContext.new).1
      = .error (.BackreferenceError "no capture available for backreference \\1")
    ∧ (Token.generate (.Backreference 1) rng0 TokenContext.new).2.2.unresolved_refs = [] := by
  constructor
  · simp [Token.generate, TokenContext.new, TokenContext.new_with_max_repeat]
    rfl
  · simp [Token.generate, TokenContext.new, TokenContext.new_with_max_repeat]

/-- C4 (amended): for a `Backreference` node with identity ≥ 1 whose group
has not yet produced text, the Node Generator records an unresolved
`(cursor, id)` entry and returns the empty string — provided the capture
table is not entirely empty; a fresh, empty capture table instead yields a
`BackreferenceError`. -/
theorem C4_forward_backreference_unresolved (id : Nat) (rng : Rng) (ctx : TokenContext)
    (h1 : 1 ≤ id) (h2 : ctx.captures ≠ []) (h3 : ctx.get_capture id = none) :
    Token.generate (.Backreference id) rng ctx = (.ok [], rng, ctx.add_unresolved id) := by
  rw [Token.generate]
  rw [if_neg (by omega), if_neg (by simp [h2]), h3]

/-- C4 witness: the amended statement at identity 1 in a context whose
capture table has one unfilled slot. -/
theorem C4_witness :
    Token.generate (.Backreference 1) rng0 ⟨32, [none], [], 0⟩
      = (.ok [], rng0, TokenContext.add_unresolved ⟨32, [none], [], 0⟩ 1) :=
  C4_forward_backreference_unresolved 1 rng0 ⟨32, [none], [], 0⟩ (by decide)
    (by simp) (by decide)

/-- C5 counterexample: the token-level Node Generator does not use the
generation context's repetition bound.  In a context built with
`new_with_max_repeat 0` (bound 0), the claim confines `a*` to 0
repetitions, yet the generator — which hard-codes a bound of 32 — can
produce 5. -/
theorem C5_counterexample :
    (TokenContext.new_with_max_repeat 0).max_repeat = 0
    ∧ (Token.generate (.Quantifier (.Literal 'a') 0 USIZE_MAX true) ⟨fun _ => 5, 0⟩
        (TokenContext.new_with_max_repeat 0)).1
      = .ok ['a', 'a', 'a', 'a', 'a'] := by
  constructor
  · rfl
  · rw [Token.generate]
    have h := genRepeat_literal 'a'
      ((if true then
          max (Rng.genRangeIncl ⟨fun _ => 5, 0⟩ 0 (min (0 + 32) USIZE_MAX)).1
            (Rng.genRangeIncl (Rng.genRangeIncl ⟨fun _ => 5, 0⟩ 0
              (min (0 + 32) USIZE_MAX)).2 0 (min (0 + 32) USIZE_MAX)).1
        else
          min (Rng.genRangeIncl ⟨fun _ => 5, 0⟩ 0 (min (0 + 32) USIZE_MAX)).1
            (Rng.genRangeIncl (Rng.genRangeIncl ⟨fun _ => 5, 0⟩ 0
              (min (0 + 32) USIZE_MAX)).2 0 (min (0 + 32) USIZE_MAX)).1))
    simp only [Rng.genRangeIncl, Rng.next, USIZE_MAX] at h ⊢
    norm_num at h ⊢
    simpa using (h [] { f := fun _ => 5, i := 2 } (TokenContext.new_with_max_repeat 0)).1

/-- C5 (amended): for a `Quantifier` node with `min ≤ max` over a literal,
the repeat count equals `min` exactly when `min = max`, and otherwise lies
in `[min, effective max]`, where the effective max for an unbounded `max`
is `min` plus the Node Generator's own fixed bound of 32 (saturating) —
not the context's `max_repeat`; consequently the token tree of `a{2,4}`
always yields between 2 and 4 copies of `a`. -/
theorem C5_quantifier_count_bounds :
    (∀ (c : Char) (mn mx : Nat) (greedy : Bool) (rng : Rng) (ctx : TokenContext),
      mn ≤ mx →
      ∃ n, (Token.generate (.Quantifier (.Literal c) mn mx greedy) rng ctx).1
            = .ok (List.replicate n c)
        ∧ mn ≤ n
        ∧ n ≤ (if mx = USIZE_MAX then min (mn + 32) USIZE_MAX else mx)
        ∧ (mn = mx → n = mn))
    ∧ (∀ rng : Rng, ∃ n,
        (genTopList (lexPattern ['a', '\x7b', '2', ',', '4', '\x7d'] 1).1 rng
          TokenContext.new).1 = .ok (List.replicate n 'a')
        ∧ 2 ≤ n ∧ n ≤ 4) := by
  have key : ∀ (c : Char) (mn mx : Nat) (greedy : Bool) (rng : Rng) (ctx : TokenContext),
      mn ≤ mx →
      ∃ n, (Token.generate (.Quantifier (.Literal c) mn mx greedy) rng ctx).1
            = .ok (List.replicate n c)
        ∧ mn ≤ n
        ∧ n ≤ (if mx = USIZE_MAX then min (mn + 32) USIZE_MAX else mx)
        ∧ (mn = mx → n = mn) := by
    intro c mn mx greedy rng ctx hle
    rw [Token.generate]
    rw [if_neg (by omega)]
    by_cases heq : mn = mx
    · rw [if_pos heq]
      refine ⟨mn, ?_, le_refl mn, ?_, fun _ => rfl⟩
      · have h := genRepeat_literal c mn [] rng ctx
        simpa using h.1
      · split
        · rename_i hmax
          have : mn ≤ USIZE_MAX := by rw [heq, hmax]
          omega
        · omega
    · rw [if_neg heq]
      have heff : mn ≤ (if mx = USIZE_MAX then min (mn + 32) USIZE_MAX else mx) := by
        split
        · rename_i hmax
          have : mn ≤ USIZE_MAX := by rw [hmax] at hle; exact hle
          omega
        · exact hle
      set eff := if mx = USIZE_MAX then min (mn + 32) USIZE_MAX else mx with heffdef
      have hb1 := genRangeIncl_bounds rng mn eff heff
      have hb2 := genRangeIncl_bounds (rng.genRangeIncl mn eff).2 mn eff heff
      set a := (rng.genRangeIncl mn eff).1
      set b := ((rng.genRangeIncl mn eff).2.genRangeIncl mn eff).1
      refine ⟨if greedy then max a b else min a b, ?_, ?_, ?_, fun hc => absurd hc heq⟩
      · have h := genRepeat_literal c (if greedy then max a b else min a b) []
          ((rng.genRangeIncl mn eff).2.genRangeIncl mn eff).2 ctx
        simpa using h.1
      · cases greedy <;> simp <;> omega
      · cases greedy <;> simp <;> omega
  refine ⟨key, ?_⟩
  intro rng
  have hlex : lexPattern ['a', '\x7b', '2', ',', '4', '\x7d'] 1
      = ([.Quantifier (.Literal 'a') 2 4 true], 1) := by
    simp [lexPattern, lexGo_nil, lexGo_lit, lexGo_lbrace, scanBrace, scanBraceMax,
      scanBraceClose, parseUsize, pushQuant, List.takeWhile, List.dropWhile,
      SPECIAL_CHARS, USIZE_MAX]
  rw [hlex]
  obtain ⟨n, hn, h2, h4, _⟩ := key 'a' 2 4 true rng TokenContext.new (by omega)
  refine ⟨n, ?_, h2, by simpa [USIZE_MAX] using h4⟩
  simp only [genTopList]
  rcases hgen : Token.generate (.Quantifier (.Literal 'a') 2 4 true) rng TokenContext.new
    with ⟨res, rng', ctx'⟩
  rw [hgen] at hn
  simp only at hn
  rw [hn]
  simp

/-- C5 witness: the amended bound statement applied to `a{2,4}` data
(`min 2`, `max 4`, greedy) on a concrete stream. -/
theorem C5_witness :
    ∃ n, (Token.generate (.Quantifier (.Literal 'a') 2 4 true) ⟨fun _ => 5, 0⟩
          TokenContext.new).1 = .ok (List.replicate n 'a')
      ∧ 2 ≤ n
      ∧ n ≤ (if 4 = USIZE_MAX then min (2 + 32) USIZE_MAX else 4)
      ∧ (2 = 4 → n = 2) :=
  C5_quantifier_count_bounds.1 'a' 2 4 true ⟨fun _ => 5, 0⟩ TokenContext.new (by omega)

/-! ### Claims about the tokenizer -/

/-- C2: tokenizing `(?:a)` does allocate a capture-group identity and
generating its token tree does write a capture-table entry.  The `'('`
scanner arm claims the group before the `"?:"` arm can see it: the pattern
becomes a capturing `Group` (identity 1) wrapping the `NonCapturingGroup`,
the group counter advances to 2, and generation records capture 1 = `a`
while producing `a`. -/
theorem C2_noncapturing_group_captures :
    lexPattern ['(', '?', ':', 'a', ')'] 1
      = ([.Group (.Concatenation [.NonCapturingGroup (.Concatenation [.Literal 'a'])]) 1], 2)
    ∧ (genTopList (lexPattern ['(', '?', ':', 'a', ')'] 1).1 rng0 TokenContext.new).1
      = .ok ['a']
    ∧ (genTopList (lexPattern ['(', '?', ':', 'a', ')'] 1).1 rng0 TokenContext.new).2.2.captures
      = [some ['a']] := by
  have hlex : lexPattern ['(', '?', ':', 'a', ')'] 1
      = ([.Group (.Concatenation [.NonCapturingGroup (.Concatenation [.Literal 'a'])]) 1],
          2) := by
    simp [lexPattern, lexGo_nil, lexGo_lparen, lexGo_noncap, lexGo_lit, scanGroup,
      SPECIAL_CHARS]
  refine ⟨hlex, ?_, ?_⟩ <;>
    (rw [hlex]
     simp [genTopList, Token.generate, genConcat, TokenContext.new,
       TokenContext.new_with_max_repeat, TokenContext.set_output_len,
       TokenContext.record_capture, utf8Len])

/-- C9: a `'|'` met by the scanner makes everything scanned so far the left
branch, recursively tokenizes the remainder (with the same group counter)
as the right branch, wraps both in `Concatenation` under a single two-way
`Alternation`, and stops; over a plain-literal prefix this gives the
claimed split of the whole pattern, and a second `'|'` nests inside the
right branch (`a|b|c`) rather than flattening. -/
theorem C9_alternation_two_way_split :
    (∀ (cs : List Char) (acc : List Token) (g : Nat),
      lexGo ('|' :: cs) acc g
        = ([.Alternation [.Concatenation acc, .Concatenation (lexGo cs [] g).1]],
            (lexGo cs [] g).2))
    ∧ (∀ (p q : List Char) (acc : List Token) (g : Nat),
        (∀ c ∈ p, c ∉ SPECIAL_CHARS) →
        lexGo (p ++ '|' :: q) acc g
          = ([.Alternation [.Concatenation (acc ++ p.map .Literal),
              .Concatenation (lexGo q [] g).1]],
              (lexGo q [] g).2))
    ∧ lexPattern ['a', '|', 'b', '|', 'c'] 1
        = ([.Alternation [.Concatenation [.Literal 'a'],
            .Concatenation [.Alternation [.Concatenation [.Literal 'b'],
              .Concatenation [.Literal 'c']]]]], 1) := by
  refine ⟨fun cs acc g => lexGo_bar cs acc g, ?_, ?_⟩
  · intro p
    induction p with
    | nil =>
      intro q acc g _
      simpa using lexGo_bar q acc g
    | cons c p ih =>
      intro q acc g hp
      have hc : c ∉ SPECIAL_CHARS := hp c (by simp)
      rw [List.cons_append, lexGo_lit c (p ++ '|' :: q) acc g hc,
        ih q (acc ++ [Token.Literal c]) g (fun x hx => hp x (by simp [hx]))]
      simp
  · simp [lexPattern, lexGo_nil, lexGo_lit, lexGo_bar, SPECIAL_CHARS]

/-- C9 witness: the literal-prefix split applied to `a|b`. -/
theorem C9_witness :
    lexGo (['a'] ++ '|' :: ['b']) [] 1
      = ([.Alternation [.Concatenation ([] ++ ['a'].map Token.Literal),
          .Concatenation (lexGo ['b'] [] 1).1]],
          (lexGo ['b'] [] 1).2) :=
  C9_alternation_two_way_split.2.1 ['a'] ['b'] [] 1 (by decide)

/-! ### Claims about the orchestrator -/

theorem alnum_utf8Size (i : Nat) : (WILDCARD_ALPHABET.getD i 'A').utf8Size = 1 := by
  by_cases h : i < WILDCARD_ALPHABET.length
  · have hall : WILDCARD_ALPHABET.all (fun c => c.utf8Size = 1) = true := by decide
    rw [List.all_eq_true] at hall
    have hmem : WILDCARD_ALPHABET.getD i 'A' ∈ WILDCARD_ALPHABET := by
      rw [List.getD_eq_getElem _ _ h]
      exact List.getElem_mem _
    simpa using hall _ hmem
  · rw [List.getD_eq_default _ _ (by omega)]
    decide

theorem utf8Len_nil : utf8Len [] = 0 := rfl

theorem utf8Len_append (a b : List Char) : utf8Len (a ++ b) = utf8Len a + utf8Len b := by
  simp [utf8Len]

theorem fillAlnum_utf8Len (n : Nat) (acc : List Char) (rng : Rng) :
    utf8Len (fillAlnum n acc rng).1 = utf8Len acc + n := by
  induction n generalizing acc rng with
  | zero => simp [fillAlnum]
  | succ m ih =>
    rw [fillAlnum]
    rw [ih, utf8Len_append]
    have h1 : utf8Len [WILDCARD_ALPHABET.getD (rng.genBelow 62).1 'A'] = 1 := by
      simp only [utf8Len, List.map_cons, List.map_nil, List.sum_cons, List.sum_nil,
        Nat.add_zero]
      exact alnum_utf8Size _
    omega

theorem tokenLoop_some (g : RegexGenerator) (toks : List Token) (fuel i : Nat) (rng : Rng)
    (s : List Char) (rng' : Rng)
    (h : tokenLoop g toks fuel i rng = (some s, rng')) :
    g.config.min_len ≤ utf8Len s ∧ utf8Len s ≤ g.config.max_len ∧ g.re s = true := by
  induction fuel generalizing i rng with
  | zero => simp [tokenLoop] at h
  | succ fuel ih =>
    rw [tokenLoop] at h
    split at h
    · simp at h
    · split at h
      · exact ih _ _ h
      · split at h
        · exact ih _ _ h
        · split at h
          · rename_i hout hlen hre
            simp only [Prod.mk.injEq, Option.some.injEq] at h
            rw [← h.1]
            simp only [Bool.or_eq_true, decide_eq_true_eq, not_or, Nat.not_lt] at hlen
            exact ⟨hlen.1, hlen.2, hre⟩
          · exact ih _ _ h

theorem astTactic_ok (g : RegexGenerator) (a : AstNode) (rng : Rng) (s : List Char)
    (rng' : Rng) (h : astTactic g a rng = (.ok s, rng')) :
    g.config.min_len ≤ utf8Len s ∧ utf8Len s ≤ g.config.max_len ∧ g.re s = true := by
  unfold astTactic at h
  split at h
  · simp at h
  · split at h
    · simp at h
    · split at h
      · rename_i hgen hlen hre
        simp only [Outcome.ok.injEq, Prod.mk.injEq] at h
        rw [← h.1]
        simp only [Bool.or_eq_true, decide_eq_true_eq, not_or, Nat.not_lt] at hlen
        exact ⟨hlen.1, hlen.2, hre⟩
      · simp at h

theorem rejectionProbe_bounds (g : RegexGenerator) (rng : Rng)
    (h : g.config.min_len ≤ g.config.max_len) :
    g.config.min_len ≤ utf8Len (rejectionProbe g rng).1
    ∧ utf8Len (rejectionProbe g rng).1 ≤ g.config.max_len := by
  unfold rejectionProbe
  split
  · rename_i heq
    rw [fillAlnum_utf8Len]
    simp only [utf8Len_nil]
    omega
  · have hb := genRangeIncl_bounds rng g.config.min_len g.config.max_len h
    rw [fillAlnum_utf8Len]
    simp only [utf8Len_nil]
    omega

theorem rejectionLoop_ok (g : RegexGenerator) (fuel i : Nat) (rng : Rng) (s : List Char)
    (rng' : Rng) (h : rejectionLoop g fuel i rng = (.ok s, rng')) :
    g.config.min_len ≤ utf8Len s ∧ utf8Len s ≤ g.config.max_len ∧ g.re s = true := by
  induction fuel generalizing i rng with
  | zero => simp [rejectionLoop] at h
  | succ fuel ih =>
    rw [rejectionLoop] at h
    split at h
    · simp at h
    · split at h
      · rename_i hcond
        split at h
        · rename_i hre
          simp only [Outcome.ok.injEq, Prod.mk.injEq] at h
          rw [← h.1]
          have hle : g.config.min_len ≤ g.config.max_len := by omega
          have hb := rejectionProbe_bounds g rng hle
          exact ⟨hb.1, hb.2, hre⟩
        · exact ih _ _ h
      · simp at h

/-- C1: whenever `generate_one` returns a string successfully — by any of
the three tactics — that string's byte length lies within
`[min_len, max_len]` inclusive and the external validator accepts it. -/
theorem C1_success_within_bounds_and_validated (g : RegexGenerator) (rng : Rng)
    (s : List Char) (t : GenTactic) (rng' : Rng)
    (h : generateOne g rng = (.ok s, t, rng')) :
    g.config.min_len ≤ utf8Len s ∧ utf8Len s ≤ g.config.max_len ∧ g.re s = true := by
  unfold generateOne at h
  split at h
  · split at h
    · rename_i htl
      simp only [Prod.mk.injEq, Outcome.ok.injEq] at h
      obtain ⟨hs, _, hrng⟩ := h
      rw [← hs]
      exact tokenLoop_some _ _ _ _ _ _ _ (by rw [htl])
    · split at h
      · rename_i hast
        rcases hA : astTactic g _ _ with ⟨res, rngA⟩
        rw [hA] at h
        simp only [Prod.mk.injEq] at h
        obtain ⟨hres, _, _⟩ := h
        rw [hres] at hA
        exact astTactic_ok _ _ _ _ _ hA
      · rcases hR : rejectionLoop g g.config.max_attempts 0 _ with ⟨res, rngR⟩
        rw [hR] at h
        simp only [Prod.mk.injEq] at h
        obtain ⟨hres, _, _⟩ := h
        rw [hres] at hR
        exact rejectionLoop_ok _ _ _ _ _ _ hR
  · split at h
    · rcases hA : astTactic g _ rng with ⟨res, rngA⟩
      rw [hA] at h
      simp only [Prod.mk.injEq] at h
      obtain ⟨hres, _, _⟩ := h
      rw [hres] at hA
      exact astTactic_ok _ _ _ _ _ hA
    · rcases hR : rejectionLoop g g.config.max_attempts 0 rng with ⟨res, rngR⟩
      rw [hR] at h
      simp only [Prod.mk.injEq] at h
      obtain ⟨hres, _, _⟩ := h
      rw [hres] at hR
      exact rejectionLoop_ok _ _ _ _ _ _ hR

/-- A minimal generator (no tokens, no AST, permissive validator,
`min_len = max_len = 0`, one attempt), used to exercise the theorems at a
concrete input. -/
def trivialGen : RegexGenerator where
  re := fun _ => true
  config := ⟨0, 0, 1, none⟩
  clock := fun _ => false
  multiline := false
  ast := none
  tokens := none

theorem trivialGen_generateOne : generateOne trivialGen rng0 = (.ok [], .rejection, rng0) := by
  simp [generateOne, trivialGen, rejectionLoop, rejectionProbe, fillAlnum]

/-- C1 witness: the bound-and-validation conclusion at a concrete
rejection-sampling success. -/
theorem C1_witness :
    trivialGen.config.min_len ≤ utf8Len [] ∧ utf8Len [] ≤ trivialGen.config.max_len
      ∧ trivialGen.re [] = true :=
  C1_success_within_bounds_and_validated trivialGen rng0 [] .rejection rng0
    trivialGen_generateOne

/-- C10: `generate_n(n)` is all-or-nothing — whenever it returns a vector
of generated strings at all, that vector has exactly `n` entries; a
failing `generate_one` call instead aborts the whole call with that error,
so no shorter partial vector of successes is ever returned. -/
theorem C10_generate_n_all_or_nothing (g : RegexGenerator) (rng : Rng) (n : Nat)
    (v : List (List Char)) (rng' : Rng) (h : generateN g rng n = (.ok v, rng')) :
    v.length = n := by
  induction n generalizing rng v rng' with
  | zero =>
    simp only [generateN, Prod.mk.injEq, Outcome.ok.injEq] at h
    rw [← h.1]
    rfl
  | succ m ih =>
    rw [generateN] at h
    split at h
    · rename_i s tac rngA hone
      split at h
      · rename_i v' rngB hrec
        simp only [Prod.mk.injEq, Outcome.ok.injEq] at h
        rw [← h.1]
        simp only [List.length_cons]
        rw [ih _ _ _ hrec]
      · simp at h
      · simp at h
    · simp at h
    · simp at h

theorem trivialGen_generateN : generateN trivialGen rng0 2 = (.ok [[], []], rng0) := by
  simp [generateN, trivialGen_generateOne]

/-- C10 witness: the all-or-nothing conclusion at a concrete two-element
generation. -/
theorem C10_witness : ([[], []] : List (List Char)).length = 2 :=
  C10_generate_n_all_or_nothing trivialGen rng0 2 [[], []] rng0 trivialGen_generateN

/-- A generator built from the pattern `a{4,2}` — whose token tree contains
a `Quantifier` with `min > max` — under a permissive validator (the posture
`allow_backrefs` produces when the validator cannot compile the pattern),
one attempt, no timeout. -/
def genMinGtMax : RegexGenerator :=
  build ['a', '\x7b', '4', ',', '2', '\x7d'] (fun _ => true) ⟨0, 64, 1, none⟩
    (fun _ => false) false

theorem lex_min_gt_max : lexPattern ['a', '\x7b', '4', ',', '2', '\x7d'] 1
    = ([.Quantifier (.Literal 'a') 4 2 true], 1) := by
  simp [lexPattern, lexGo_nil, lexGo_lit, lexGo_lbrace, scanBrace, scanBraceMax,
    scanBraceClose, parseUsize, pushQuant, List.takeWhile, List.dropWhile,
    SPECIAL_CHARS, USIZE_MAX]

theorem genMinGtMax_eval : generateOne genMinGtMax rng0 = (.err .NoMatch, .legacy, rng0) := by
  have hparse : parseTokens [Token.Quantifier (.Literal 'a') 4 2 true]
      = some (.Repeat (.Literal 'a') 4 2 true) := by
    simp [parseTokens, segNode, parseAtomNode, Token.isAlternationTok]
  simp only [genMinGtMax, build, lex_min_gt_max]
  simp [generateOne, tokenLoop, genTopList, Token.generate, astTactic, generateFromAst,
    hparse, TokenContext.new, TokenContext.new_with_max_repeat]

/-- C6 counterexample: the pattern `a{4,2}` tokenizes to a `Quantifier`
with `min = 4 > 2 = max`, yet generating from it (one attempt, permissive
validator) ends in `NoMatch` — not in an internal-invariant error. -/
theorem C6_counterexample :
    (lexPattern ['a', '\x7b', '4', ',', '2', '\x7d'] 1).1
      = [.Quantifier (.Literal 'a') 4 2 true]
    ∧ (generateOne genMinGtMax rng0).1 = .err .NoMatch := by
  refine ⟨by rw [lex_min_gt_max], ?_⟩
  rw [genMinGtMax_eval]

/-- C6 (amended): the Node Generator does report an internal-invariant
violation for a `Quantifier` with `min > max`, but the orchestrator
swallows node-level errors: once the token attempts are exhausted the
legacy AST pass (whose `Repeat` arm maps `min > max` to `NoMatch`, the
public error type having no internal variant at all) makes the whole
generation end in `NoMatch`. -/
theorem C6_min_gt_max_internal_yet_swallowed :
    (∀ (t : Token) (mn mx : Nat) (gr : Bool) (rng : Rng) (ctx : TokenContext), mx < mn →
      Token.generate (.Quantifier t mn mx gr) rng ctx
        = (.error (.Internal "Quantifier min > max"), rng, ctx))
    ∧ generateOne genMinGtMax rng0 = (.err .NoMatch, .legacy, rng0) := by
  refine ⟨?_, genMinGtMax_eval⟩
  intro t mn mx gr rng ctx hlt
  rw [Token.generate]
  rw [if_pos (by omega)]

/-- C6 witness: the internal-invariant error at the `a{4,2}` quantifier
node itself. -/
theorem C6_witness :
    Token.generate (.Quantifier (.Literal 'a') 4 2 true) rng0 TokenContext.new
      = (.error (.Internal "Quantifier min > max"), rng0, TokenContext.new) :=
  C6_min_gt_max_internal_yet_swallowed.1 (.Literal 'a') 4 2 true rng0 TokenContext.new
    (by omega)

/-- A generator built from the pattern `[]` — a nonempty token tree (one
empty `Class`) whose token-level generation always fails — under a
permissive validator, one attempt, no timeout. -/
def genEmptyClass : RegexGenerator :=
  build ['[', ']'] (fun _ => true) ⟨0, 64, 1, none⟩ (fun _ => false) false

theorem genEmptyClass_eval :
    generateOne genEmptyClass rng0 = (.err .NoMatch, .legacy, rng0) := by
  have hlex : lexPattern ['[', ']'] 1 = ([.Class []], 1) := by
    simp [lexPattern, lexGo_nil, lexGo_class, scanClass]
  have hparse : parseTokens [Token.Class []] = some (.Class []) := by
    simp [parseTokens, segNode, parseAtomNode, Token.isAlternationTok]
  simp only [genEmptyClass, build, hlex]
  simp [generateOne, tokenLoop, genTopList, Token.generate, astTactic, generateFromAst,
    hparse, TokenContext.new, TokenContext.new_with_max_repeat]

/-- C8 counterexample: the pattern `[]` produces a nonempty token tree, yet
`generate_one` does invoke the legacy whole-tree path (its token attempts
all fail, and the built AST exists, so the result comes from the legacy
tactic). -/
theorem C8_counterexample :
    (lexPattern ['[', ']'] 1).1 ≠ []
    ∧ (generateOne genEmptyClass rng0).2.1 = .legacy := by
  constructor
  · have hlex : lexPattern ['[', ']'] 1 = ([.Class []], 1) := by
      simp [lexPattern, lexGo_nil, lexGo_class, scanClass]
    rw [hlex]
    simp
  · rw [genEmptyClass_eval]

/-- C8 (amended): for a built generator, the legacy whole-tree tactic
produces the result exactly when the token tree is nonempty, the token
parser yielded an AST, and all token-based attempts failed; in particular
an empty pattern (empty token tree) goes straight to rejection sampling,
never to the legacy path, while a nonempty token tree can reach it. -/
theorem C8_legacy_characterization (pattern : List Char) (re : List Char → Bool)
    (config : GeneratorConfig) (clock : Nat → Bool) (ml : Bool) (rng : Rng) :
    (generateOne (build pattern re config clock ml) rng).2.1 = .legacy ↔
      ((lexPattern pattern 1).1 ≠ []
        ∧ (parseTokens (lexPattern pattern 1).1).isSome
        ∧ (tokenLoop (build pattern re config clock ml) (lexPattern pattern 1).1
            config.max_attempts 0 rng).1 = none) := by
  by_cases hemp : (lexPattern pattern 1).1 = []
  · simp only [generateOne, build, hemp]
    simp
  · have hbuild : (build pattern re config clock ml).tokens = some (lexPattern pattern 1).1
        ∧ (build pattern re config clock ml).ast = parseTokens (lexPattern pattern 1).1
        ∧ (build pattern re config clock ml).config = config := by
      simp [build, hemp]
    rcases hbuild with ⟨htoks, hast, hcfg⟩
    rw [generateOne, htoks, hcfg]
    dsimp only
    rcases hloop : tokenLoop (build pattern re config clock ml) (lexPattern pattern 1).1
        config.max_attempts 0 rng with ⟨o, rngL⟩
    cases o with
    | some s => simp
    | none =>
      rw [hast]
      cases hp : parseTokens (lexPattern pattern 1).1 with
      | some a => simp [hemp]
      | none => simp

end Genrex
